import Mathlib

/-!
Verification of the application-assembly core of superdesk
(`superdesk/factory/app.py`) against its natural-language specification.

Python dictionaries are embedded as association lists `List (String × α)`
that keep insertion order: setting an existing key updates it in place,
setting a fresh key appends at the end, exactly as CPython dicts behave.
Python sets are embedded as lists used only through membership; exceptions
are embedded as `Option`/`Except` results.
-/

namespace Superdesk

/-- Lookup in an insertion-ordered dictionary (first matching key wins;
keys are unique by construction of `setKey`). -/
def alookup {α : Type} (m : List (String × α)) (k : String) : Option α :=
  match m with
  | [] => none
  | (k₁, v) :: rest => if k₁ = k then some v else alookup rest k

/-- Python `d[k] = v`: update the entry in place if the key exists,
otherwise append it, preserving insertion order. -/
def setKey {α : Type} (m : List (String × α)) (k : String) (v : α) : List (String × α) :=
  match m with
  | [] => [(k, v)]
  | (k₁, v₁) :: rest => if k₁ = k then (k, v) :: rest else (k₁, v₁) :: setKey rest k v

/-- Python `d.setdefault(k, v)`: insert only when the key is absent. -/
def setdefaultKey {α : Type} (m : List (String × α)) (k : String) (v : α) :
    List (String × α) :=
  match alookup m k with
  | some _ => m
  | none => setKey m k v

/-- Python `d.update(other)`: set every key of `other` in order. -/
def aupdate {α : Type} (m other : List (String × α)) : List (String × α) :=
  other.foldl (fun acc kv => setKey acc kv.1 kv.2) m

/-- The keys of a dictionary, in order. -/
def keysOf {α : Type} (m : List (String × α)) : List String :=
  m.map Prod.fst

/-! ## Module Installer (`install_app` inside `get_app`)

`installed` is the Installed-Module Set; it is embedded as the list of
module names in the order they were installed (membership is all the
source uses, the order carries the extra bookkeeping the ordering claims
need).  `hooks` records, in order, the modules whose `init_app` hook was
invoked; `hasInitHook` abstracts Python's `hasattr(app_module, "init_app")`. -/

structure InstallState where
  installed : List String
  hooks : List String
  deriving Repr, DecidableEq

/-- `install_app(module_name)`: return immediately when already installed,
otherwise record the module and invoke its hook when it has one. -/
def install_app (hasInitHook : String → Bool) (s : InstallState) (module_name : String) :
    InstallState :=
  if module_name ∈ s.installed then s
  else
    { installed := s.installed ++ [module_name]
      hooks := if hasInitHook module_name then s.hooks ++ [module_name] else s.hooks }

/-- The two installation loops of `get_app`: all of `CORE_APPS`, then all
of `INSTALLED_APPS`, starting from the empty Installed-Module Set. -/
def installApps (hasInitHook : String → Bool) (core_apps installed_apps : List String) :
    InstallState :=
  (core_apps ++ installed_apps).foldl (install_app hasInitHook) ⟨[], []⟩

/-- First-occurrence deduplication relative to an already-seen list. -/
def newMods (seen : List String) : List String → List String
  | [] => []
  | x :: xs => if x ∈ seen then newMods seen xs else x :: newMods (seen ++ [x]) xs

/-- First-occurrence deduplication of a module list. -/
def dedupFirst (l : List String) : List String := newMods [] l

/-! ## Configuration Resolver (the config-building slice of `get_app`)

`get_app` builds a `flask.Config`, loads `superdesk.default_settings`,
applies `setdefault` for a few keys, then layers `config_object` (via
`from_object`, which copies its attributes key by key) and finally the
`config` argument: `app_config.update(config or {})`, falling back to
`from_object(config)` when `update` raises `TypeError` because `config`
is not mapping-shaped.  Setting values are an arbitrary type `α`. -/

/-- The `config` argument of `get_app`: either mapping-shaped (taken by
`dict.update`) or an object whose attributes are copied (`from_object`). -/
inductive ConfigArg (α : Type) where
  | mapping (m : List (String × α))
  | obj (o : List (String × α))

/-- The configuration snapshot produced by `get_app` before the app object
is instantiated. -/
def get_app_config {α : Type} (default_settings : List (String × α))
    (abs_path domain_empty sources_empty : α)
    (config_object : Option (List (String × α)))
    (config : Option (ConfigArg α)) : List (String × α) :=
  let c := aupdate [] default_settings
  let c := setdefaultKey c "APP_ABSPATH" abs_path
  let c := setdefaultKey c "DOMAIN" domain_empty
  let c := setdefaultKey c "SOURCES" sources_empty
  let c := match config_object with
    | some o => aupdate c o
    | none => c
  match config with
  | none => c
  | some (.mapping m) => aupdate c m
  | some (.obj o) => aupdate c o

/-! ## Resource Registry (the bulk catalog merge at the end of `get_app`)

`for resource in superdesk.DOMAIN: if resource not in app.config["DOMAIN"]:
app.register_resource(resource, superdesk.DOMAIN[resource])`.  Eve's
`register_resource` stores the definition under the resource name in the
domain set (plus routing side effects outside this model).  Resource
definitions are an arbitrary type `ρ`. -/

/-- One iteration of the merge loop: skip the catalog entry when its name
is already in the domain set, register it otherwise. -/
def registerResourceStep {ρ : Type} (d : List (String × ρ)) (rc : String × ρ) :
    List (String × ρ) :=
  match alookup d rc.1 with
  | some _ => d
  | none => setKey d rc.1 rc.2

def registerResources {ρ : Type} (domain catalog : List (String × ρ)) :
    List (String × ρ) :=
  catalog.foldl registerResourceStep domain

/-! ## Index Manager (`SuperdeskEve.init_indexes`)

The store-layer call `create_index` (eve/pymongo, external) is abstracted
by a `create` function returning which of the three outcomes the source
distinguishes: success, `KeyError` (resource config missing at the store),
or `DuplicateKeyError`.  Key lists are an opaque type `κ`, index-option
values an opaque type `ο` with `trueVal` standing for Python `True` in
`index_options.setdefault("background", True)`.  `logger` calls are
recorded in an explicit log; the `Bool` in the result tells whether the
call raised (re-raised `DuplicateKeyError`). -/

inductive MongoIndexValue (κ ο : Type) where
  | bare (list_of_keys : κ)
  | pair (list_of_keys : κ) (index_options : List (String × ο))

inductive CreateResult where
  | ok
  | keyError
  | duplicateKey
  deriving DecidableEq, Repr

inductive IndexLogEntry where
  | warningMissingResource (resource : String)
  | exceptionDuplicateKey (resource name : String)
  deriving DecidableEq, Repr

/-- `if isinstance(value, tuple): ... else: ...` plus
`index_options.setdefault("background", True)`. -/
def normalizeIndexValue {κ ο : Type} (trueVal : ο) :
    MongoIndexValue κ ο → κ × List (String × ο)
  | .bare list_of_keys => (list_of_keys, setdefaultKey [] "background" trueVal)
  | .pair list_of_keys index_options =>
      (list_of_keys, setdefaultKey index_options "background" trueVal)

/-- The (resource, index name, value) triples the two nested loops of
`init_indexes` visit, in order.  A resource whose `mongo_indexes__init`
is absent (`None`) contributes nothing — the source's
`if not mongo_indexes: continue` also skips an empty mapping, which is
behaviorally the same as looping over it zero times. -/
def indexEntries {κ ο : Type}
    (domain : List (String × Option (List (String × MongoIndexValue κ ο)))) :
    List (String × String × MongoIndexValue κ ο) :=
  domain.foldr
    (fun rp acc =>
      match rp.2 with
      | none => acc
      | some mongo_indexes => (mongo_indexes.map fun nv => (rp.1, nv.1, nv.2)) ++ acc)
    []

/-- The try/except body of `init_indexes` over the flattened entry list:
`KeyError` logs a warning and continues, `DuplicateKeyError` logs the
exception and re-raises unless `ignore_duplicate_keys`. -/
def processIndexes {κ ο : Type}
    (create : String → String → κ → List (String × ο) → CreateResult)
    (ignore_duplicate_keys : Bool) (trueVal : ο) :
    List (String × String × MongoIndexValue κ ο) → List IndexLogEntry × Bool
  | [] => ([], false)
  | (resource, name, value) :: rest =>
    let nv := normalizeIndexValue trueVal value
    match create resource name nv.1 nv.2 with
    | .ok => processIndexes create ignore_duplicate_keys trueVal rest
    | .keyError =>
      let r := processIndexes create ignore_duplicate_keys trueVal rest
      (.warningMissingResource resource :: r.1, r.2)
    | .duplicateKey =>
      if ignore_duplicate_keys then
        let r := processIndexes create ignore_duplicate_keys trueVal rest
        (.exceptionDuplicateKey resource name :: r.1, r.2)
      else ([.exceptionDuplicateKey resource name], true)

/-- `init_indexes(ignore_duplicate_keys=False)`: returns the log entries
emitted and whether the call raised. -/
def init_indexes {κ ο : Type}
    (create : String → String → κ → List (String × ο) → CreateResult) (trueVal : ο)
    (domain : List (String × Option (List (String × MongoIndexValue κ ο))))
    (ignore_duplicate_keys : Bool := false) : List IndexLogEntry × Bool :=
  processIndexes create ignore_duplicate_keys trueVal (indexEntries domain)

/-! ## Storage Backend Selector (`get_media_storage_class`)

Dynamic import (`importlib.import_module` + `getattr`) is abstracted by
`resolveClass`; `issubclass(klass, MediaStorage)` by
`isMediaStorageSubclass`.  `SystemExit` is the `Except.error` case.  A
provider setting that is not a string fails the `isinstance` check and
falls through to the default, exactly as a falsy/absent one does after
the truthiness test. -/

inductive StorageClass where
  | ProxyMediaStorage
  | custom (name : String)
  deriving DecidableEq, Repr

inductive ProviderSetting where
  | strVal (s : String)
  | nonStr
  deriving DecidableEq, Repr

def get_media_storage_class (resolveClass : String → StorageClass)
    (isMediaStorageSubclass : StorageClass → Bool)
    (media_storage_provider : Option ProviderSetting)
    (use_provider_config : Bool := true) : Except String StorageClass :=
  if use_provider_config then
    match media_storage_provider with
    | some (.strVal s) =>
      if s ≠ "" then
        let klass := resolveClass s
        if isMediaStorageSubclass klass then .ok klass
        else .error "Invalid setting MEDIA_STORAGE_PROVIDER. Class must extend eve.io.media.MediaStorage"
      else .ok .ProxyMediaStorage
    | _ => .ok .ProxyMediaStorage
  else .ok .ProxyMediaStorage

/-! ## Locale Resolver (`get_locale` inside `get_app`)

`babel.parse_locale` (external) is abstracted by `parse_locale_ok`, true
exactly when parsing does not raise `ValueError`.  `user_language` is the
user context's language preference (`None` when absent), `default_language`
the `DEFAULT_LANGUAGE` setting (`None` when unset, so `"en"`). -/

/-- Python `s.replace("-", "_")`: for the single-character pattern used
here this is a character-by-character substitution. -/
def hyphenToUnderscore (s : String) : String :=
  String.mk (s.data.map fun c => if c = '-' then '_' else c)

def get_locale (parse_locale_ok : String → Bool) (default_language : Option String)
    (user_language : Option String) : String :=
  let dflt := default_language.getD "en"
  let ul := user_language.getD dflt
  let ul := if parse_locale_ok (hyphenToUnderscore ul) then ul else dflt
  hyphenToUnderscore ul

/-! ## Error Translator (`set_error_handlers`)

Response bodies are JSON-shaped dictionaries.  `SuperdeskError.to_dict`
lives in `superdesk/errors`, outside this excerpt, and is modelled from
the spec. -/

inductive JVal where
  | num (n : Nat)
  | str (s : String)
  | null
  deriving DecidableEq, Repr

structure SuperdeskErrorModel where
  status_code : Option Nat
  message : String
  deriving DecidableEq, Repr

/-- Python `x or d` on an optional numeric status code (`None` and `0` are
falsy). -/
def pythonOrNat : Option Nat → Nat → Nat
  | some n, d => if n = 0 then d else n
  | none, d => d

def jvalOfCode : Option Nat → JVal
  | some n => .num n
  | none => .null

/-- Modelled from the spec: `SuperdeskError.to_dict` (in `superdesk/errors`,
not part of this excerpt) serializes the error's structured fields — its
code and message. -/
def toDict (e : SuperdeskErrorModel) : List (String × JVal) :=
  [("code", jvalOfCode e.status_code), ("error", .str e.message)]

/-- The `SuperdeskError` handler: body plus HTTP status code. -/
def client_error_handler (e : SuperdeskErrorModel) : List (String × JVal) × Nat :=
  let error_dict := toDict e
  let error_dict := setKey error_dict "internal_error" (jvalOfCode e.status_code)
  (error_dict, pythonOrNat e.status_code 422)

/-- The `AssertionError` handler. -/
def assert_error_handler (message : String) : List (String × JVal) × Nat :=
  ([("code", .num 400), ("error", .str (if message = "" then "assert" else message))], 400)

/-! ## Item scope (`SuperdeskEve.item_scope`)

The parts of `self.config` the method touches: the `item_scope` metadata
map, the `DOMAIN` map (each resource with its `schema` and its
`datasource.projection`), and the `VERSIONS` suffix.  Schema rule values
are an arbitrary type `ρ`.  `AssertionError` and `KeyError` are the error
cases; mutations made before a failure persist, as they do on the Python
config object. -/

structure ItemResourceConfig (ρ : Type) where
  schema : List (String × ρ)
  datasource_projection : List (String × Nat)
  deriving Repr

structure AppConfig (ρ : Type) where
  item_scope : List (String × Option (List (String × ρ)))
  domain : List (String × ItemResourceConfig ρ)
  versions : String
  deriving Repr

inductive ScopeError where
  | assertionError
  | keyError (resource : String)
  deriving DecidableEq, Repr

/-- The closure `update_resource_schema(resource)`: `assert schema`, then
update the resource's schema and set each schema key to `1` in its
datasource projection.  Fails with `KeyError` when the resource is not in
the domain set. -/
def update_resource_schema {ρ : Type} (schema : List (String × ρ)) (cfg : AppConfig ρ)
    (resource : String) : Except ScopeError (AppConfig ρ) :=
  if schema.isEmpty then .error .assertionError
  else
    match alookup cfg.domain resource with
    | none => .error (.keyError resource)
    | some rc =>
      let rc₁ : ItemResourceConfig ρ :=
        { schema := aupdate rc.schema schema
          datasource_projection :=
            schema.foldl (fun proj kv => setKey proj kv.1 1) rc.datasource_projection }
      .ok { cfg with domain := setKey cfg.domain resource rc₁ }

/-- The fixed target-resource tuple of `item_scope`. -/
def itemScopeResources : List String := ["archive", "archive_autosave", "published", "archived"]

/-- The `for resource in (...)` loop of `item_scope`: update each target,
and its versioned counterpart when present in the domain set.  On failure
the configuration reached so far is returned together with the error. -/
def applyScopeTargets {ρ : Type} (schema : List (String × ρ)) :
    AppConfig ρ → List String → AppConfig ρ × Option ScopeError
  | cfg, [] => (cfg, none)
  | cfg, resource :: rest =>
    match update_resource_schema schema cfg resource with
    | .error e => (cfg, some e)
    | .ok cfg₁ =>
      let versioned_resource := resource ++ cfg₁.versions
      match alookup cfg₁.domain versioned_resource with
      | none => applyScopeTargets schema cfg₁ rest
      | some _ =>
        match update_resource_schema schema cfg₁ versioned_resource with
        | .error e => (cfg₁, some e)
        | .ok cfg₂ => applyScopeTargets schema cfg₂ rest

/-- `item_scope(name, schema=None)`: record the scope in the `item_scope`
map, then, when a schema is given, propagate it to the target resources.
Returns the configuration as mutated so far plus the error, if any. -/
def item_scope {ρ : Type} (cfg : AppConfig ρ) (name : String)
    (schema : Option (List (String × ρ))) : AppConfig ρ × Option ScopeError :=
  let cfg₀ : AppConfig ρ := { cfg with item_scope := setKey cfg.item_scope name schema }
  match schema with
  | none => (cfg₀, none)
  | some s => applyScopeTargets s cfg₀ itemScopeResources

/-- A schema fragment has been applied to a resource configuration: every
fragment key maps to its fragment value in the schema and to the inclusion
marker `1` in the datasource projection. -/
def scopeApplied {ρ : Type} (s : List (String × ρ)) (rc : ItemResourceConfig ρ) : Prop :=
  ∀ k, k ∈ keysOf s →
    alookup rc.schema k = alookup s k ∧ alookup rc.datasource_projection k = some 1

theorem alookup_setKey_self {α : Type} (m : List (String × α)) (k : String) (v : α) :
    alookup (setKey m k v) k = some v := by
  induction m with
  | nil => simp [setKey, alookup]
  | cons hd tl ih =>
    obtain ⟨k₁, v₁⟩ := hd
    by_cases h : k₁ = k
    · simp [setKey, h, alookup]
    · simp [setKey, h, alookup, ih]

theorem alookup_setKey_ne {α : Type} (m : List (String × α)) (k k₂ : String) (v : α)
    (h : k ≠ k₂) : alookup (setKey m k v) k₂ = alookup m k₂ := by
  induction m with
  | nil => simp [setKey, alookup, h]
  | cons hd tl ih =>
    obtain ⟨k₁, v₁⟩ := hd
    by_cases h₁ : k₁ = k
    · subst h₁
      simp [setKey, alookup, h]
    · simp [setKey, h₁, alookup, ih]

theorem alookup_aupdate_not_mem {α : Type} (m other : List (String × α)) (k : String)
    (h : k ∉ keysOf other) : alookup (aupdate m other) k = alookup m k := by
  induction other generalizing m with
  | nil => simp [aupdate]
  | cons hd tl ih =>
    obtain ⟨k₁, v₁⟩ := hd
    simp only [keysOf, List.map_cons, List.mem_cons, not_or] at h
    show alookup (aupdate (setKey m k₁ v₁) tl) k = alookup m k
    rw [ih (setKey m k₁ v₁) (by simpa [keysOf] using h.2)]
    exact alookup_setKey_ne m k₁ k v₁ (fun he => h.1 he.symm)

theorem alookup_aupdate_mem {α : Type} (m other : List (String × α)) (k : String)
    (hmem : k ∈ keysOf other) (hnd : (keysOf other).Nodup) :
    alookup (aupdate m other) k = alookup other k := by
  induction other generalizing m with
  | nil => simp [keysOf] at hmem
  | cons hd tl ih =>
    obtain ⟨k₁, v₁⟩ := hd
    simp only [keysOf, List.map_cons, List.nodup_cons] at hnd
    show alookup (aupdate (setKey m k₁ v₁) tl) k = alookup ((k₁, v₁) :: tl) k
    by_cases h : k₁ = k
    · subst h
      rw [alookup_aupdate_not_mem _ _ _ (by simpa [keysOf] using hnd.1)]
      simp [alookup, alookup_setKey_self]
    · simp only [keysOf, List.map_cons, List.mem_cons] at hmem
      rcases hmem with h₁ | h₁
      · exact absurd h₁.symm h
      · rw [ih _ (by simpa [keysOf] using h₁) (by simpa [keysOf] using hnd.2)]
        simp [alookup, h]

theorem foldl_install_app_eq (hasInitHook : String → Bool) (l : List String)
    (acc hk : List String) :
    l.foldl (install_app hasInitHook) ⟨acc, hk⟩ =
      ⟨acc ++ newMods acc l, hk ++ (newMods acc l).filter hasInitHook⟩ := by
  induction l generalizing acc hk with
  | nil => simp [newMods]
  | cons x xs ih =>
    by_cases h : x ∈ acc
    · have hs : install_app hasInitHook ⟨acc, hk⟩ x = ⟨acc, hk⟩ := by
        simp [install_app, h]
      rw [List.foldl_cons, hs, ih acc hk]
      simp [newMods, h]
    · have hs : install_app hasInitHook ⟨acc, hk⟩ x =
          ⟨acc ++ [x], if hasInitHook x then hk ++ [x] else hk⟩ := by
        simp [install_app, h]
      rw [List.foldl_cons, hs, ih]
      simp only [newMods, h, if_neg, not_false_iff, InstallState.mk.injEq]
      constructor
      · simp
      · by_cases hx : hasInitHook x <;> simp [hx, List.filter_cons]

theorem installApps_eq (hasInitHook : String → Bool) (core ext : List String) :
    installApps hasInitHook core ext =
      ⟨dedupFirst (core ++ ext), (dedupFirst (core ++ ext)).filter hasInitHook⟩ := by
  have h := foldl_install_app_eq hasInitHook (core ++ ext) [] []
  simpa [installApps, dedupFirst] using h

theorem mem_keysOf_of_alookup {α : Type} (m : List (String × α)) (k : String) (v : α)
    (h : alookup m k = some v) : k ∈ keysOf m := by
  induction m with
  | nil => simp [alookup] at h
  | cons hd tl ih =>
    obtain ⟨k₁, v₁⟩ := hd
    by_cases h₁ : k₁ = k
    · simp [keysOf, h₁]
    · simp only [alookup, h₁, if_neg, not_false_iff] at h
      simp [keysOf, Or.inr (by simpa [keysOf] using ih h)]

theorem mem_newMods (x : String) (l : List String) :
    ∀ seen, x ∈ newMods seen l ↔ x ∈ l ∧ x ∉ seen := by
  induction l with
  | nil => simp [newMods]
  | cons y ys ih =>
    intro seen
    by_cases hy : y ∈ seen
    · rw [newMods, if_pos hy, ih seen]
      constructor
      · exact fun ⟨h₁, h₂⟩ => ⟨List.mem_cons_of_mem _ h₁, h₂⟩
      · rintro ⟨h₁, h₂⟩
        rcases List.mem_cons.mp h₁ with rfl | h₁
        · exact absurd hy h₂
        · exact ⟨h₁, h₂⟩
    · rw [newMods, if_neg hy]
      by_cases hxy : x = y
      · subst hxy
        simp [hy]
      · simp only [List.mem_cons, hxy, false_or, ih (seen ++ [y]), List.mem_append,
          List.mem_singleton]
        tauto

theorem nodup_newMods (l : List String) : ∀ seen, (newMods seen l).Nodup := by
  induction l with
  | nil => intro seen; simp [newMods]
  | cons y ys ih =>
    intro seen
    by_cases hy : y ∈ seen
    · rw [newMods, if_pos hy]; exact ih seen
    · rw [newMods, if_neg hy]
      refine List.nodup_cons.mpr ⟨fun hmem => ?_, ih (seen ++ [y])⟩
      have := (mem_newMods y ys (seen ++ [y])).mp hmem
      simp at this

theorem newMods_append (xs ys : List String) :
    ∀ seen, newMods seen (xs ++ ys) = newMods seen xs ++ newMods (seen ++ newMods seen xs) ys := by
  induction xs with
  | nil => intro seen; simp [newMods]
  | cons x xs ih =>
    intro seen
    by_cases hx : x ∈ seen
    · simp only [List.cons_append, newMods, if_pos hx]
      exact ih seen
    · simp only [List.cons_append, newMods, if_neg hx]
      simp only [List.append_eq]
      rw [ih (seen ++ [x])]
      simp [List.append_assoc]

theorem newMods_congr (l : List String) :
    ∀ s₁ s₂, (∀ x, x ∈ s₁ ↔ x ∈ s₂) → newMods s₁ l = newMods s₂ l := by
  induction l with
  | nil => intro s₁ s₂ _; simp [newMods]
  | cons y ys ih =>
    intro s₁ s₂ h
    by_cases hy : y ∈ s₁
    · rw [newMods, if_pos hy, newMods, if_pos ((h y).mp hy)]
      exact ih s₁ s₂ h
    · rw [newMods, if_neg hy, newMods, if_neg (fun hc => hy ((h y).mpr hc))]
      refine congrArg (y :: ·) (ih _ _ fun x => ?_)
      simp [h x]

theorem alookup_foldl_setKey_one_not_mem {ρ : Type} (s : List (String × ρ)) :
    ∀ (proj : List (String × Nat)) (k : String), k ∉ keysOf s →
      alookup (s.foldl (fun proj kv => setKey proj kv.1 1) proj) k = alookup proj k := by
  induction s with
  | nil => intro proj k _; rfl
  | cons hd tl ih =>
    intro proj k hk
    simp only [keysOf, List.map_cons, List.mem_cons, not_or] at hk
    rw [List.foldl_cons, ih _ k (by simpa [keysOf] using hk.2)]
    exact alookup_setKey_ne proj hd.1 k 1 (fun he => hk.1 he.symm)

theorem alookup_foldl_setKey_one {ρ : Type} (s : List (String × ρ)) :
    ∀ (proj : List (String × Nat)) (k : String), k ∈ keysOf s →
      alookup (s.foldl (fun proj kv => setKey proj kv.1 1) proj) k = some 1 := by
  induction s with
  | nil => intro proj k hk; simp [keysOf] at hk
  | cons hd tl ih =>
    intro proj k hk
    by_cases hmem : k ∈ keysOf tl
    · rw [List.foldl_cons]
      exact ih _ k hmem
    · have hk₁ : hd.1 = k := by
        simp only [keysOf, List.map_cons, List.mem_cons] at hk
        rcases hk with h | h
        · exact h.symm
        · exact absurd (by simpa [keysOf] using h) hmem
      rw [List.foldl_cons, alookup_foldl_setKey_one_not_mem tl _ k hmem, hk₁,
        alookup_setKey_self]

theorem processIndexes_never_raises_when_tolerant {κ ο : Type}
    (create : String → String → κ → List (String × ο) → CreateResult) (trueVal : ο)
    (l : List (String × String × MongoIndexValue κ ο)) :
    (processIndexes create true trueVal l).2 = false := by
  induction l with
  | nil => rfl
  | cons e rest ih =>
    obtain ⟨resource, name, value⟩ := e
    rw [processIndexes]
    cases create resource name (normalizeIndexValue trueVal value).1
        (normalizeIndexValue trueVal value).2 <;> simpa using ih

theorem processIndexes_raise_has_duplicate {κ ο : Type}
    (create : String → String → κ → List (String × ο) → CreateResult) (trueVal : ο)
    (ignore_duplicate_keys : Bool) (l : List (String × String × MongoIndexValue κ ο))
    (h : (processIndexes create ignore_duplicate_keys trueVal l).2 = true) :
    ∃ e ∈ l, create e.1 e.2.1 (normalizeIndexValue trueVal e.2.2).1
      (normalizeIndexValue trueVal e.2.2).2 = .duplicateKey := by
  induction l with
  | nil => simp [processIndexes] at h
  | cons e rest ih =>
    obtain ⟨resource, name, value⟩ := e
    rw [processIndexes] at h
    rcases hc : create resource name (normalizeIndexValue trueVal value).1
        (normalizeIndexValue trueVal value).2 with _ | _ | _
    · rw [hc] at h
      obtain ⟨e₁, he₁, hd⟩ := ih h
      exact ⟨e₁, List.mem_cons_of_mem _ he₁, hd⟩
    · rw [hc] at h
      simp only at h
      obtain ⟨e₁, he₁, hd⟩ := ih h
      exact ⟨e₁, List.mem_cons_of_mem _ he₁, hd⟩
    · exact ⟨(resource, name, value), List.mem_cons_self _ _, hc⟩

theorem registerResources_lookup {ρ : Type} (catalog : List (String × ρ)) :
    ∀ (domain : List (String × ρ)) (r : String),
      ((alookup domain r).isSome →
        alookup (registerResources domain catalog) r = alookup domain r) ∧
      (alookup domain r = none →
        alookup (registerResources domain catalog) r = alookup catalog r) := by
  induction catalog with
  | nil => exact fun domain r => ⟨fun _ => rfl, fun h => h⟩
  | cons hd tl ih =>
    intro domain r
    obtain ⟨r₁, v₁⟩ := hd
    have hfold : registerResources domain ((r₁, v₁) :: tl) =
        registerResources (registerResourceStep domain (r₁, v₁)) tl := rfl
    cases h₁ : alookup domain r₁ with
    | some w =>
      have hstep : registerResourceStep domain (r₁, v₁) = domain := by
        simp [registerResourceStep, h₁]
      constructor
      · intro hs
        rw [hfold, hstep]
        exact (ih domain r).1 hs
      · intro hn
        rw [hfold, hstep, (ih domain r).2 hn]
        have hr : r₁ ≠ r := fun he => by rw [he, hn] at h₁; cases h₁
        simp [alookup, hr]
    | none =>
      have hstep : registerResourceStep domain (r₁, v₁) = setKey domain r₁ v₁ := by
        simp [registerResourceStep, h₁]
      by_cases hr : r₁ = r
      · subst hr
        constructor
        · intro hs
          rw [h₁] at hs
          simp at hs
        · intro _
          rw [hfold, hstep]
          have hpres : alookup (setKey domain r₁ v₁) r₁ = some v₁ :=
            alookup_setKey_self domain r₁ v₁
          rw [(ih (setKey domain r₁ v₁) r₁).1 (by rw [hpres]; rfl), hpres]
          simp [alookup]
      · have hne : alookup (setKey domain r₁ v₁) r = alookup domain r :=
          alookup_setKey_ne domain r₁ r v₁ hr
        constructor
        · intro hs
          rw [hfold, hstep, (ih _ r).1 (by rw [hne]; exact hs), hne]
        · intro hn
          rw [hfold, hstep, (ih _ r).2 (by rw [hne]; exact hn)]
          simp [alookup, hr]

theorem update_resource_schema_ok {ρ : Type} (s : List (String × ρ)) (cfg : AppConfig ρ)
    (resource : String) (rc : ItemResourceConfig ρ)
    (hne : s.isEmpty = false) (hrc : alookup cfg.domain resource = some rc) :
    update_resource_schema s cfg resource =
      .ok ⟨cfg.item_scope,
        setKey cfg.domain resource
          ⟨aupdate rc.schema s,
            s.foldl (fun proj kv => setKey proj kv.1 1) rc.datasource_projection⟩,
        cfg.versions⟩ := by
  rw [update_resource_schema, hne, hrc]
  rfl

theorem update_resource_schema_props {ρ : Type} (s : List (String × ρ)) (cfg : AppConfig ρ)
    (resource : String) (rc : ItemResourceConfig ρ) (hnd : (keysOf s).Nodup)
    (hne : s.isEmpty = false) (hrc : alookup cfg.domain resource = some rc) :
    ∃ cfg₁, update_resource_schema s cfg resource = .ok cfg₁ ∧
      cfg₁.versions = cfg.versions ∧
      cfg₁.item_scope = cfg.item_scope ∧
      (∀ n, (alookup cfg₁.domain n).isSome = (alookup cfg.domain n).isSome) ∧
      (∀ n rc₀, n ≠ resource → alookup cfg.domain n = some rc₀ →
        alookup cfg₁.domain n = some rc₀) ∧
      (∃ rc₁, alookup cfg₁.domain resource = some rc₁ ∧ scopeApplied s rc₁) := by
  refine ⟨_, update_resource_schema_ok s cfg resource rc hne hrc, rfl, rfl, ?_, ?_, ?_⟩
  · intro n
    by_cases h : resource = n
    · subst h
      rw [alookup_setKey_self, hrc]
      rfl
    · rw [alookup_setKey_ne _ _ _ _ h]
  · intro n rc₀ hn h
    rw [alookup_setKey_ne _ _ _ _ (fun he => hn he.symm)]
    exact h
  · refine ⟨_, alookup_setKey_self _ _ _, fun k hk => ?_⟩
    exact ⟨alookup_aupdate_mem rc.schema s k hk hnd,
      alookup_foldl_setKey_one s rc.datasource_projection k hk⟩

theorem applyScopeTargets_props {ρ : Type} (s : List (String × ρ))
    (hne : s.isEmpty = false) (hnd : (keysOf s).Nodup) :
    ∀ (ts : List String) (cfg : AppConfig ρ),
      (∀ r, r ∈ ts → (alookup cfg.domain r).isSome) →
      ∃ cfg₁, applyScopeTargets s cfg ts = (cfg₁, none) ∧
        cfg₁.versions = cfg.versions ∧
        cfg₁.item_scope = cfg.item_scope ∧
        (∀ n, (alookup cfg₁.domain n).isSome = (alookup cfg.domain n).isSome) ∧
        (∀ n rc₀, alookup cfg.domain n = some rc₀ → scopeApplied s rc₀ →
          ∃ rc₁, alookup cfg₁.domain n = some rc₁ ∧ scopeApplied s rc₁) ∧
        (∀ r, r ∈ ts →
          (∃ rc₁, alookup cfg₁.domain r = some rc₁ ∧ scopeApplied s rc₁) ∧
          ((alookup cfg.domain (r ++ cfg.versions)).isSome →
            ∃ rc₁, alookup cfg₁.domain (r ++ cfg.versions) = some rc₁ ∧
              scopeApplied s rc₁)) := by
  intro ts
  induction ts with
  | nil =>
    intro cfg _
    exact ⟨cfg, rfl, rfl, rfl, fun _ => rfl, fun n rc₀ h hs => ⟨rc₀, h, hs⟩,
      fun r hr => absurd hr (List.not_mem_nil r)⟩
  | cons r rs ih =>
    intro cfg hdom
    obtain ⟨rc, hrc⟩ := Option.isSome_iff_exists.mp (hdom r (List.mem_cons_self r rs))
    obtain ⟨cfg₁, hok, hver₁, hisc₁, hsome₁, hpres₁, rc₁, hrc₁, happ₁⟩ :=
      update_resource_schema_props s cfg r rc hnd hne hrc
    cases hv : alookup cfg₁.domain (r ++ cfg₁.versions) with
    | none =>
      have hdom₁ : ∀ r', r' ∈ rs → (alookup cfg₁.domain r').isSome := fun r' h => by
        rw [hsome₁]
        exact hdom r' (List.mem_cons_of_mem _ h)
      obtain ⟨cfg₂, hres, hver₂, hisc₂, hsome₂, hpres₂, hts₂⟩ := ih cfg₁ hdom₁
      have heq : applyScopeTargets s cfg (r :: rs) = applyScopeTargets s cfg₁ rs := by
        simp only [applyScopeTargets, hok, hv]
      refine ⟨cfg₂, by rw [heq]; exact hres, by rw [hver₂, hver₁], by rw [hisc₂, hisc₁],
        fun n => by rw [hsome₂, hsome₁], ?_, ?_⟩
      · intro n rc₀ h hs
        by_cases hn : n = r
        · subst hn
          exact hpres₂ _ rc₁ hrc₁ happ₁
        · exact hpres₂ n rc₀ (hpres₁ n rc₀ hn h) hs
      · intro r' hr'
        rcases List.mem_cons.mp hr' with rfl | hr'
        · refine ⟨hpres₂ r' rc₁ hrc₁ happ₁, fun hv₀ => ?_⟩
          exfalso
          have hx : (alookup cfg₁.domain (r' ++ cfg₁.versions)).isSome := by
            rw [hsome₁, hver₁]
            exact hv₀
          rw [hv] at hx
          simp at hx
        · obtain ⟨ha, hb⟩ := hts₂ r' hr'
          refine ⟨ha, fun hv₀ => ?_⟩
          have hvv : r' ++ cfg.versions = r' ++ cfg₁.versions := by rw [hver₁]
          rw [hvv]
          apply hb
          rw [hsome₁, hver₁]
          exact hv₀
    | some rcv =>
      obtain ⟨cfg₂, hok₂, hver₂, hisc₂, hsome₂, hpres₂, rc₃, hrc₃, happ₃⟩ :=
        update_resource_schema_props s cfg₁ (r ++ cfg₁.versions) rcv hnd hne hv
      have hdom₂ : ∀ r', r' ∈ rs → (alookup cfg₂.domain r').isSome := fun r' h => by
        rw [hsome₂, hsome₁]
        exact hdom r' (List.mem_cons_of_mem _ h)
      obtain ⟨cfg₃, hres, hver₃, hisc₃, hsome₃, hpres₃, hts₃⟩ := ih cfg₂ hdom₂
      have heq : applyScopeTargets s cfg (r :: rs) = applyScopeTargets s cfg₂ rs := by
        simp only [applyScopeTargets, hok, hv, hok₂]
      have happr : ∃ rc₄, alookup cfg₂.domain r = some rc₄ ∧ scopeApplied s rc₄ := by
        by_cases hn₂ : r = r ++ cfg₁.versions
        · rw [hn₂]
          exact ⟨rc₃, hrc₃, happ₃⟩
        · exact ⟨rc₁, hpres₂ r rc₁ hn₂ hrc₁, happ₁⟩
      obtain ⟨rc₄, hrc₄, happ₄⟩ := happr
      refine ⟨cfg₃, by rw [heq]; exact hres, by rw [hver₃, hver₂, hver₁],
        by rw [hisc₃, hisc₂, hisc₁], fun n => by rw [hsome₃, hsome₂, hsome₁], ?_, ?_⟩
      · intro n rc₀ h hs
        by_cases hn : n = r
        · subst hn
          exact hpres₃ _ rc₄ hrc₄ happ₄
        · by_cases hn₂ : n = r ++ cfg₁.versions
          · subst hn₂
            exact hpres₃ _ rc₃ hrc₃ happ₃
          · exact hpres₃ n rc₀ (hpres₂ n rc₀ hn₂ (hpres₁ n rc₀ hn h)) hs
      · intro r' hr'
        rcases List.mem_cons.mp hr' with rfl | hr'
        · refine ⟨hpres₃ r' rc₄ hrc₄ happ₄, fun hv₀ => ?_⟩
          have hvv : r' ++ cfg.versions = r' ++ cfg₁.versions := by rw [hver₁]
          rw [hvv]
          exact hpres₃ _ rc₃ hrc₃ happ₃
        · obtain ⟨ha, hb⟩ := hts₃ r' hr'
          refine ⟨ha, fun hv₀ => ?_⟩
          have hvv : r' ++ cfg.versions = r' ++ cfg₂.versions := by rw [hver₂, hver₁]
          rw [hvv]
          apply hb
          rw [hsome₂, hsome₁, hver₂, hver₁]
          exact hv₀

/-! ## Claim theorems -/

/-- Claim C1: module installation is idempotent.  A second `install_app`
call for a name already in the Installed-Module Set returns the state
unchanged (no side effect), so installing the same module name twice leaves
the Installed-Module Set unchanged in size and the module's `init_app`
hook is invoked exactly once. -/
theorem C1_install_app_idempotent (hasInitHook : String → Bool) (s : InstallState)
    (module_name : String) (h₁ : module_name ∉ s.installed)
    (h₂ : hasInitHook module_name = true) :
    install_app hasInitHook (install_app hasInitHook s module_name) module_name =
      install_app hasInitHook s module_name ∧
    (install_app hasInitHook (install_app hasInitHook s module_name) module_name).installed.length
      = (install_app hasInitHook s module_name).installed.length ∧
    (install_app hasInitHook (install_app hasInitHook s module_name) module_name).hooks.count
      module_name = s.hooks.count module_name + 1 := by
  have hfirst : install_app hasInitHook s module_name =
      ⟨s.installed ++ [module_name], s.hooks ++ [module_name]⟩ := by
    simp [install_app, h₁, h₂]
  have hmem : module_name ∈ (install_app hasInitHook s module_name).installed := by
    rw [hfirst]; simp
  have hsecond : install_app hasInitHook (install_app hasInitHook s module_name) module_name =
      install_app hasInitHook s module_name := by
    rw [install_app, if_pos hmem]
  refine ⟨hsecond, by rw [hsecond], ?_⟩
  rw [hsecond, hfirst]
  simp

/-- Witness for C1 at a concrete input. -/
theorem C1_witness :
    "m" ∉ (⟨[], []⟩ : InstallState).installed ∧
    install_app (fun _ => true) (install_app (fun _ => true) ⟨[], []⟩ "m") "m" =
      install_app (fun _ => true) ⟨[], []⟩ "m" ∧
    (install_app (fun _ => true) (install_app (fun _ => true) ⟨[], []⟩ "m") "m").hooks.count "m"
      = (⟨[], []⟩ : InstallState).hooks.count "m" + 1 :=
  ⟨by simp,
   (C1_install_app_idempotent (fun _ => true) ⟨[], []⟩ "m" (by simp) rfl).1,
   (C1_install_app_idempotent (fun _ => true) ⟨[], []⟩ "m" (by simp) rfl).2.2⟩

/-- Claim C9: in every assembly run all core modules are installed before
any extension-only module, installation follows list order within each
list (the installed list is the first-occurrence deduplication of the
combined core-then-extension list, split into the core block followed by
the extension-only block), hooks fire in installation order, and no module
is installed twice. -/
theorem C9_installApps_ordering (hasInitHook : String → Bool) (core ext : List String) :
    (installApps hasInitHook core ext).installed = dedupFirst (core ++ ext) ∧
    (installApps hasInitHook core ext).hooks =
      ((installApps hasInitHook core ext).installed).filter hasInitHook ∧
    (installApps hasInitHook core ext).installed = dedupFirst core ++ newMods core ext ∧
    (∀ m, m ∈ dedupFirst core ↔ m ∈ core) ∧
    (∀ m, m ∈ newMods core ext → m ∈ ext ∧ m ∉ core) ∧
    (installApps hasInitHook core ext).installed.Nodup := by
  have heq := installApps_eq hasInitHook core ext
  have hmemcore : ∀ m, m ∈ dedupFirst core ↔ m ∈ core := by
    intro m
    rw [dedupFirst, mem_newMods]
    simp
  have hsplit : dedupFirst (core ++ ext) = dedupFirst core ++ newMods core ext := by
    rw [dedupFirst, newMods_append, List.nil_append]
    exact congrArg (newMods [] core ++ ·)
      (newMods_congr ext _ _ fun x => by rw [show newMods [] core = dedupFirst core from rfl, hmemcore x])
  refine ⟨by rw [heq], by rw [heq], by rw [heq]; exact hsplit, hmemcore, ?_, ?_⟩
  · intro m hm
    exact (mem_newMods m ext core).mp hm
  · rw [heq]
    exact nodup_newMods _ _

/-- Witness for C9 at a concrete input. -/
theorem C9_witness :
    (installApps (fun _ => true) ["a", "b"] ["b", "c"]).installed =
      dedupFirst (["a", "b"] ++ ["b", "c"]) ∧
    ("c" ∈ ["b", "c"] ∧ "c" ∉ ["a", "b"]) :=
  ⟨(C9_installApps_ordering (fun _ => true) ["a", "b"] ["b", "c"]).1,
   (C9_installApps_ordering (fun _ => true) ["a", "b"] ["b", "c"]).2.2.2.2.1 "c" (by decide)⟩

/-- Claim C2: configuration override precedence.  A key present both in the
config-object layer and in the explicit override mapping passed to the app
factory resolves to the override mapping's value (later layers win). -/
theorem C2_override_precedence {α : Type} (default_settings : List (String × α))
    (abs_path domain_empty sources_empty : α) (config_object m : List (String × α))
    (k : String) (v₀ v₁ : α) (ho : alookup config_object k = some v₀)
    (hm : alookup m k = some v₁) (hnd : (keysOf m).Nodup) :
    alookup (get_app_config default_settings abs_path domain_empty sources_empty
      (some config_object) (some (ConfigArg.mapping m))) k = some v₁ := by
  show alookup (aupdate _ m) k = some v₁
  rw [alookup_aupdate_mem _ m k (mem_keysOf_of_alookup m k v₁ hm) hnd, hm]

/-- Witness for C2 at a concrete input. -/
theorem C2_witness :
    alookup [("K", 2)] "K" = some 2 ∧ alookup [("K", 3)] "K" = some 3 ∧
    (keysOf [("K", (3 : Nat))]).Nodup ∧
    alookup (get_app_config [("K", 1)] 9 8 7 (some [("K", 2)])
      (some (ConfigArg.mapping [("K", 3)]))) "K" = some 3 :=
  ⟨by decide, by decide, by decide,
   C2_override_precedence [("K", 1)] 9 8 7 [("K", 2)] [("K", 3)] "K" 2 3
     (by decide) (by decide) (by decide)⟩

/-- Claim C3: resource-registry non-clobber.  The bulk catalog merge leaves
every resource already in the domain set unchanged, and adds from the
catalog exactly the resource names absent from the domain set. -/
theorem C3_registry_non_clobber {ρ : Type} (domain catalog : List (String × ρ)) :
    (∀ r, (alookup domain r).isSome →
      alookup (registerResources domain catalog) r = alookup domain r) ∧
    (∀ r, alookup domain r = none →
      alookup (registerResources domain catalog) r = alookup catalog r) :=
  ⟨fun r => (registerResources_lookup catalog domain r).1,
   fun r => (registerResources_lookup catalog domain r).2⟩

/-- Witness for C3 at the concrete input of the claim: a domain set with
resource "R" configured with schema `a ↦ 1` merged against a catalog entry
for "R" with schema `b ↦ 1` still maps "R" to `a ↦ 1`. -/
theorem C3_witness :
    (alookup [("R", [("a", 1)])] "R").isSome ∧
    alookup (registerResources [("R", [("a", (1 : Nat))])] [("R", [("b", 1)])]) "R" =
      alookup [("R", [("a", 1)])] "R" :=
  ⟨by decide,
   (C3_registry_non_clobber [("R", [("a", 1)])] [("R", [("b", 1)])]).1 "R" (by decide)⟩

/-- Claim C4: index-creation error asymmetry.  An unknown-resource
(`KeyError`) outcome is logged as a warning and iteration continues
without raising; a duplicate-key outcome is logged and then raises if and
only if duplicate-tolerance is disabled, and is skipped with iteration
continuing when it is enabled; with tolerance enabled `init_indexes` never
raises, and a raise can only come from a duplicate-key outcome. -/
theorem C4_init_indexes_error_asymmetry {κ ο : Type}
    (create : String → String → κ → List (String × ο) → CreateResult) (trueVal : ο)
    (ignore_duplicate_keys : Bool) (resource name : String) (value : MongoIndexValue κ ο)
    (rest : List (String × String × MongoIndexValue κ ο))
    (domain : List (String × Option (List (String × MongoIndexValue κ ο)))) :
    (create resource name (normalizeIndexValue trueVal value).1
        (normalizeIndexValue trueVal value).2 = .keyError →
      processIndexes create ignore_duplicate_keys trueVal ((resource, name, value) :: rest) =
        (.warningMissingResource resource ::
            (processIndexes create ignore_duplicate_keys trueVal rest).1,
          (processIndexes create ignore_duplicate_keys trueVal rest).2)) ∧
    (create resource name (normalizeIndexValue trueVal value).1
        (normalizeIndexValue trueVal value).2 = .duplicateKey →
      ignore_duplicate_keys = false →
      processIndexes create ignore_duplicate_keys trueVal ((resource, name, value) :: rest) =
        ([.exceptionDuplicateKey resource name], true)) ∧
    (create resource name (normalizeIndexValue trueVal value).1
        (normalizeIndexValue trueVal value).2 = .duplicateKey →
      ignore_duplicate_keys = true →
      processIndexes create ignore_duplicate_keys trueVal ((resource, name, value) :: rest) =
        (.exceptionDuplicateKey resource name ::
            (processIndexes create ignore_duplicate_keys trueVal rest).1,
          (processIndexes create ignore_duplicate_keys trueVal rest).2)) ∧
    (ignore_duplicate_keys = true →
      (init_indexes create trueVal domain ignore_duplicate_keys).2 = false) ∧
    ((init_indexes create trueVal domain ignore_duplicate_keys).2 = true →
      ∃ e ∈ indexEntries domain, create e.1 e.2.1 (normalizeIndexValue trueVal e.2.2).1
        (normalizeIndexValue trueVal e.2.2).2 = .duplicateKey) := by
  refine ⟨fun hc => ?_, fun hc hig => ?_, fun hc hig => ?_, fun hig => ?_, fun hr => ?_⟩
  · rw [processIndexes, hc]
  · subst hig
    rw [processIndexes, hc]
    simp
  · subst hig
    rw [processIndexes, hc]
    simp
  · subst hig
    exact processIndexes_never_raises_when_tolerant create trueVal (indexEntries domain)
  · exact processIndexes_raise_has_duplicate create trueVal ignore_duplicate_keys
      (indexEntries domain) hr

/-- Witness for C4 at a concrete input: one resource whose index hits a
`KeyError` followed by one hitting a `DuplicateKeyError` with tolerance
disabled. -/
theorem C4_witness :
    ((fun r _ _ _ => if r = "bad" then CreateResult.keyError else
        if r = "dup" then CreateResult.duplicateKey else CreateResult.ok) "bad" "i1"
      (normalizeIndexValue () (MongoIndexValue.bare ())).1
      (normalizeIndexValue () (MongoIndexValue.bare ())).2 = CreateResult.keyError) ∧
    processIndexes
        (fun r _ _ _ => if r = "bad" then CreateResult.keyError else
          if r = "dup" then CreateResult.duplicateKey else CreateResult.ok)
        false () [("bad", "i1", MongoIndexValue.bare ()), ("dup", "i2", .bare ())] =
      (.warningMissingResource "bad" ::
          (processIndexes
            (fun r _ _ _ => if r = "bad" then CreateResult.keyError else
              if r = "dup" then CreateResult.duplicateKey else CreateResult.ok)
            false () [("dup", "i2", MongoIndexValue.bare ())]).1,
        (processIndexes
          (fun r _ _ _ => if r = "bad" then CreateResult.keyError else
            if r = "dup" then CreateResult.duplicateKey else CreateResult.ok)
          false () [("dup", "i2", MongoIndexValue.bare ())]).2) ∧
    (init_indexes
        (fun r _ _ _ => if r = "bad" then CreateResult.keyError else
          if r = "dup" then CreateResult.duplicateKey else CreateResult.ok)
        () [("dup", some [("i2", MongoIndexValue.bare ())])] true).2 = false :=
  ⟨by decide,
   (C4_init_indexes_error_asymmetry
      (fun r _ _ _ => if r = "bad" then CreateResult.keyError else
        if r = "dup" then CreateResult.duplicateKey else CreateResult.ok)
      () false "bad" "i1" (MongoIndexValue.bare ()) [("dup", "i2", .bare ())] []).1 (by decide),
   (C4_init_indexes_error_asymmetry
      (fun r _ _ _ => if r = "bad" then CreateResult.keyError else
        if r = "dup" then CreateResult.duplicateKey else CreateResult.ok)
      () true "x" "y" (MongoIndexValue.bare ()) []
      [("dup", some [("i2", MongoIndexValue.bare ())])]).2.2.2.1 rfl⟩

/-- Claim C6: storage backend selection.  A configured provider string that
resolves to a class failing the `MediaStorage` subclass check aborts with
the fatal configuration error, and with no provider configured, or with
provider override disallowed, the default `ProxyMediaStorage` class is
returned. -/
theorem C6_media_storage_selection (resolveClass : String → StorageClass)
    (isMediaStorageSubclass : StorageClass → Bool)
    (media_storage_provider : Option ProviderSetting) (s : String)
    (hs : s ≠ "") (hbad : isMediaStorageSubclass (resolveClass s) = false) :
    get_media_storage_class resolveClass isMediaStorageSubclass (some (.strVal s)) true =
      .error "Invalid setting MEDIA_STORAGE_PROVIDER. Class must extend eve.io.media.MediaStorage" ∧
    get_media_storage_class resolveClass isMediaStorageSubclass none true =
      .ok .ProxyMediaStorage ∧
    get_media_storage_class resolveClass isMediaStorageSubclass media_storage_provider false =
      .ok .ProxyMediaStorage := by
  refine ⟨?_, rfl, rfl⟩
  simp [get_media_storage_class, hs, hbad]

/-- Witness for C6 at a concrete input. -/
theorem C6_witness :
    ("a.B" : String) ≠ "" ∧
    get_media_storage_class (fun s => .custom s) (fun _ => false) (some (.strVal "a.B")) true =
      .error "Invalid setting MEDIA_STORAGE_PROVIDER. Class must extend eve.io.media.MediaStorage" ∧
    get_media_storage_class (fun s => .custom s) (fun _ => false) (some .nonStr) false =
      .ok .ProxyMediaStorage :=
  ⟨by decide,
   (C6_media_storage_selection (fun s => .custom s) (fun _ => false) (some .nonStr) "a.B"
     (by decide) rfl).1,
   (C6_media_storage_selection (fun s => .custom s) (fun _ => false) (some .nonStr) "a.B"
     (by decide) rfl).2.2⟩

/-- Claim C7: locale resolution.  A user-supplied preference that parses
(after hyphen-to-underscore normalization) resolves to its normalized
form; a preference that fails validation, or an absent preference,
resolves to the normalized configured default.  The resolver is a total
function of its inputs — `parse_locale`'s `ValueError` is caught inside
it, so invalid client input never raises. -/
theorem C7_locale_resolution (parse_locale_ok : String → Bool)
    (default_language : Option String) (user_language : String) :
    (parse_locale_ok (hyphenToUnderscore user_language) = true →
      get_locale parse_locale_ok default_language (some user_language) =
        hyphenToUnderscore user_language) ∧
    (parse_locale_ok (hyphenToUnderscore user_language) = false →
      get_locale parse_locale_ok default_language (some user_language) =
        hyphenToUnderscore (default_language.getD "en")) ∧
    get_locale parse_locale_ok default_language none =
      hyphenToUnderscore (default_language.getD "en") := by
  refine ⟨fun hp => ?_, fun hp => ?_, ?_⟩
  · simp [get_locale, hp]
  · simp [get_locale, hp]
  · by_cases hp : parse_locale_ok (hyphenToUnderscore (default_language.getD "en")) <;>
      simp [get_locale, hp]

/-- Witness for C7 at the concrete inputs of the claim: "en-US" resolves to
"en_US" when valid, and an invalid tag falls back to the default. -/
theorem C7_witness :
    ((fun t => t == "en_US") (hyphenToUnderscore "en-US") = true ∧
      get_locale (fun t => t == "en_US") (some "en") (some "en-US") = "en_US") ∧
    ((fun t => t == "en_US") (hyphenToUnderscore "xx!") = false ∧
      get_locale (fun t => t == "en_US") (some "en") (some "xx!") = "en") :=
  ⟨⟨by decide,
    Trans.trans
      ((C7_locale_resolution (fun t => t == "en_US") (some "en") "en-US").1 (by decide))
      (by decide)⟩,
   ⟨by decide,
    Trans.trans
      ((C7_locale_resolution (fun t => t == "en_US") (some "en") "xx!").2.1 (by decide))
      (by decide)⟩⟩

/-- Claim C8: error envelope shape.  A declared domain error translates to
its serialized fields plus an `internal_error` marker equal to its own
status code, with that status code as the HTTP status, or 422 when the
status code is unspecified; an assertion failure translates to HTTP 400
with the failure message as the error field, or the literal "assert" when
the message is empty. -/
theorem C8_error_envelope (n : Nat) (message amessage : String)
    (hn : n ≠ 0) (hne : amessage ≠ "") :
    client_error_handler ⟨some n, message⟩ =
      ([("code", .num n), ("error", .str message), ("internal_error", .num n)], n) ∧
    client_error_handler ⟨none, message⟩ =
      ([("code", .null), ("error", .str message), ("internal_error", .null)], 422) ∧
    client_error_handler ⟨some 404, "not found"⟩ =
      ([("code", .num 404), ("error", .str "not found"), ("internal_error", .num 404)], 404) ∧
    assert_error_handler amessage = ([("code", .num 400), ("error", .str amessage)], 400) ∧
    assert_error_handler "" = ([("code", .num 400), ("error", .str "assert")], 400) := by
  refine ⟨?_, by simp [client_error_handler, toDict, jvalOfCode, setKey, pythonOrNat], by decide,
    ?_, by decide⟩
  · simp [client_error_handler, toDict, jvalOfCode, setKey, pythonOrNat, hn]
  · simp [assert_error_handler, hne]

/-- Witness for C8 at the concrete inputs of the claim. -/
theorem C8_witness :
    (404 : Nat) ≠ 0 ∧ ("boom" : String) ≠ "" ∧
    client_error_handler ⟨some 404, "not found"⟩ =
      ([("code", .num 404), ("error", .str "not found"), ("internal_error", .num 404)], 404) ∧
    assert_error_handler "boom" = ([("code", .num 400), ("error", .str "boom")], 400) ∧
    assert_error_handler "" = ([("code", .num 400), ("error", .str "assert")], 400) :=
  ⟨by decide, by decide,
   (C8_error_envelope 404 "not found" "boom" (by decide) (by decide)).1,
   (C8_error_envelope 404 "not found" "boom" (by decide) (by decide)).2.2.2.1,
   (C8_error_envelope 404 "not found" "boom" (by decide) (by decide)).2.2.2.2⟩

/-- Claim C10: item-scope registration is not atomic on failure.  The scope
name and schema are recorded in the `item_scope` map before any validation
or resource mutation, so with an empty (non-`None`) schema the
non-emptiness assertion fires on the first target resource and the call
fails, yet the scope entry remains recorded. -/
theorem C10_item_scope_not_atomic {ρ : Type} (cfg : AppConfig ρ) (name : String) :
    (item_scope cfg name (some [])).2 = some .assertionError ∧
    alookup (item_scope cfg name (some [])).1.item_scope name = some (some []) := by
  have hred : item_scope cfg name (some []) =
      (⟨setKey cfg.item_scope name (some []), cfg.domain, cfg.versions⟩, some .assertionError) := by
    rw [item_scope]
    rfl
  rw [hred]
  exact ⟨rfl, alookup_setKey_self _ _ _⟩

/-- Claim C5: item-scope propagation.  Declaring an item scope with a
non-empty schema adds every schema field to the schema mapping, and to the
datasource output projection with inclusion marker 1, of each of the four
target resources, and additionally of each target's versioned counterpart
(name suffixed with the configured version marker) whenever that
counterpart is present in the domain set. -/
theorem C5_item_scope_propagation {ρ : Type} (cfg : AppConfig ρ) (name : String)
    (s : List (String × ρ)) (hne : s.isEmpty = false) (hnd : (keysOf s).Nodup)
    (hdom : ∀ r, r ∈ itemScopeResources → (alookup cfg.domain r).isSome) :
    (item_scope cfg name (some s)).2 = none ∧
    ∀ r, r ∈ itemScopeResources →
      (∃ rc, alookup (item_scope cfg name (some s)).1.domain r = some rc ∧
        scopeApplied s rc) ∧
      ((alookup cfg.domain (r ++ cfg.versions)).isSome →
        ∃ rc, alookup (item_scope cfg name (some s)).1.domain (r ++ cfg.versions) = some rc ∧
          scopeApplied s rc) := by
  obtain ⟨cfg₁, hres, hver, hisc, hsome, hpres, hts⟩ :=
    applyScopeTargets_props s hne hnd itemScopeResources
      ⟨setKey cfg.item_scope name (some s), cfg.domain, cfg.versions⟩
      (fun r hr => hdom r hr)
  have hred : item_scope cfg name (some s) =
      applyScopeTargets s ⟨setKey cfg.item_scope name (some s), cfg.domain, cfg.versions⟩
        itemScopeResources := rfl
  rw [hred, hres]
  exact ⟨rfl, fun r hr => hts r hr⟩

/-- Witness for C5 at a concrete input: a domain set holding the four
target resources plus the versioned counterpart of "archive". -/
theorem C5_witness :
    ([("x", (7 : Nat))].isEmpty = false) ∧
    (item_scope
        (⟨[], [("archive", ⟨[("f", 5)], [("f", 1)]⟩), ("archive_autosave", ⟨[], []⟩),
            ("published", ⟨[], []⟩), ("archived", ⟨[], []⟩),
            ("archive_versions", ⟨[], []⟩)], "_versions"⟩ : AppConfig Nat)
        "scope" (some [("x", 7)])).2 = none ∧
    (∃ rc, alookup (item_scope
        (⟨[], [("archive", ⟨[("f", 5)], [("f", 1)]⟩), ("archive_autosave", ⟨[], []⟩),
            ("published", ⟨[], []⟩), ("archived", ⟨[], []⟩),
            ("archive_versions", ⟨[], []⟩)], "_versions"⟩ : AppConfig Nat)
        "scope" (some [("x", 7)])).1.domain "archive" = some rc ∧
      scopeApplied [("x", 7)] rc) :=
  ⟨rfl,
   (C5_item_scope_propagation
     (⟨[], [("archive", ⟨[("f", 5)], [("f", 1)]⟩), ("archive_autosave", ⟨[], []⟩),
         ("published", ⟨[], []⟩), ("archived", ⟨[], []⟩),
         ("archive_versions", ⟨[], []⟩)], "_versions"⟩ : AppConfig Nat)
     "scope" [("x", 7)] rfl (by decide) (by decide)).1,
   ((C5_item_scope_propagation
     (⟨[], [("archive", ⟨[("f", 5)], [("f", 1)]⟩), ("archive_autosave", ⟨[], []⟩),
         ("published", ⟨[], []⟩), ("archived", ⟨[], []⟩),
         ("archive_versions", ⟨[], []⟩)], "_versions"⟩ : AppConfig Nat)
     "scope" [("x", 7)] rfl (by decide) (by decide)).2 "archive" (by decide)).1⟩

end Superdesk
